import Mathlib

/-!
# Verification of the NotebooklmCrawler discovery pipeline

A shallow embedding of `src/discovery/edu_search_pipeline.py` (class
`EduSearchPipeline`) together with the global blocked-domain defaults of
`src/discovery/ddg_scraper.py`.  Python strings are Lean `String`s
(character-list based, ASCII-faithful for the data appearing in the
pipeline); Python `str.lower` is a per-character ASCII lowering; Python's
substring test `needle in hay` is `List.isInfixOf` on the character lists;
Python dicts (which iterate in insertion order) are association lists;
`random.uniform(0, 1)` jitter and the network search backend are abstracted
as explicit function parameters; float delays are rationals.
-/

namespace EduSearch

/-- Python `s.lower()` (ASCII case folding, as used on the pipeline's data). -/
def pyLower (s : String) : String := ⟨s.data.map Char.toLower⟩

/-- Whether `needle` starts the list `hay` (character-wise). -/
def listStarts : List Char → List Char → Bool
  | _, [] => true
  | [], _ :: _ => false
  | h :: hs, n :: ns => h == n && listStarts hs ns

/-- Whether `needle` occurs contiguously inside `hay`. -/
def listHasSub (hay needle : List Char) : Bool :=
  match hay with
  | [] => listStarts [] needle
  | _ :: t => listStarts hay needle || listHasSub t needle

/-- Python `needle in hay` for strings: contiguous-substring membership. -/
def pyContains (hay needle : String) : Bool := listHasSub hay.data needle.data

/-- Python `s.rstrip "/"`: remove every trailing `'/'` character. -/
def rstripSlashes (s : String) : String := ⟨(s.data.reverse.dropWhile (· = '/')).reverse⟩

/-- Python `s.split(c)[0]`: the characters before the first occurrence of `c`. -/
def takeUntilChar (c : Char) (l : List Char) : List Char := l.takeWhile (· ≠ c)

/-- `edu_search_pipeline.py:404`: the deduplication key
`url.rstrip("/").lower().split("?")[0].split("#")[0]`. -/
def normUrl (url : String) : String :=
  ⟨takeUntilChar '#' (takeUntilChar '?' (pyLower (rstripSlashes url)).data)⟩

/-- A character allowed in a URL scheme by `urllib.parse` (letters, digits,
`+`, `-`, `.`). -/
def schemeChar (c : Char) : Bool := c.isAlphanum || c = '+' || c = '-' || c = '.'

/-- Whether `urllib.parse.urlsplit` recognises a `scheme:` prefix: a colon
preceded by a nonempty run of scheme characters starting with a letter. -/
def hasScheme (l : List Char) : Bool :=
  let pre := l.takeWhile (· ≠ ':')
  decide (pre.length < l.length) && !pre.isEmpty &&
    (pre.headD ' ').isAlpha && pre.all schemeChar

/-- The URL after its `scheme:` prefix, when one is recognised. -/
def afterScheme (l : List Char) : List Char :=
  if hasScheme l then l.drop ((l.takeWhile (· ≠ ':')).length + 1) else l

/-- `urllib.parse.urlparse(url).netloc` on characters: present only after a
leading `//`, running up to the next `/`, `?` or `#`. -/
def netlocChars : List Char → List Char
  | '/' :: '/' :: rest => rest.takeWhile (fun c => !(c = '/' || c = '?' || c = '#'))
  | _ => []

/-- `urlparse(url).netloc` as a string. -/
def netloc (url : String) : String := ⟨netlocChars (afterScheme url.data)⟩

/-- Python `s.replace("www.", "")`: delete every (case-sensitive,
non-overlapping, left-to-right) occurrence of `"www."`. -/
def removeWWW : List Char → List Char
  | 'w' :: 'w' :: 'w' :: '.' :: rest => removeWWW rest
  | c :: rest => c :: removeWWW rest
  | [] => []

/-- `edu_search_pipeline.py:412`: `urlparse(url).netloc.replace("www.", "")`. -/
def domainOf (url : String) : String := ⟨removeWWW (netloc url).data⟩

/-- `URL_EXCLUDE_PATTERNS` of `edu_search_pipeline.py:117`. -/
def URL_EXCLUDE_PATTERNS : List String :=
  ["/login", "/signup", "/pricing", "/cart", "/checkout",
   "/subscribe", "/premium", "/app-download", "/trial"]

/-- `BLOCKED_PATTERNS` of `ddg_scraper.py:32` (its default value, with the
regex escaping of the literal dots undone: each entry is a plain substring
pattern). -/
def BLOCKED_PATTERNS_DEFAULT : List String :=
  ["duckduckgo.com", "youtube.com", "facebook.com", "twitter.com",
   "instagram.com", "pinterest.com", "linkedin.com", "amazon.com"]

/-- A raw search hit as built by `EduSearchPipeline.fetch` (`title`, `url`,
`snippet` with `""` defaults for missing dict keys). -/
structure RawHit where
  title : String := ""
  url : String := ""
  snippet : String := ""
deriving DecidableEq, Repr

/-- The `SearchResult` dataclass of `edu_search_pipeline.py:140`. -/
structure SearchResult where
  title : String
  url : String
  snippet : String
  domain : String := ""
  is_trusted : Bool := false
deriving DecidableEq, Repr

/-- The loop body of `EduSearchPipeline.filter_results` (lines 400-424):
`seen` is the set of already-recorded deduplication keys (a list, since
insertion order is irrelevant to membership). -/
def filterResultsGo (trusted : List String) (strict : Bool) :
    List String → List RawHit → List SearchResult
  | _, [] => []
  | seen, r :: rest =>
    if r.url = "" then filterResultsGo trusted strict seen rest
    else
      if normUrl r.url ∈ seen then filterResultsGo trusted strict seen rest
      else
        if URL_EXCLUDE_PATTERNS.any (fun pat => pyContains (pyLower r.url) pat) then
          filterResultsGo trusted strict (normUrl r.url :: seen) rest
        else
          let isT := trusted.any (fun td => pyContains (domainOf r.url) td)
          if strict && !isT then
            filterResultsGo trusted strict (normUrl r.url :: seen) rest
          else
            { title := r.title, url := r.url, snippet := r.snippet,
              domain := domainOf r.url, is_trusted := isT } ::
              filterResultsGo trusted strict (normUrl r.url :: seen) rest

/-- `output.sort(key=lambda x: (0 if x.is_trusted else 1))` of line 426:
Python's sort is stable, and a stable sort by this two-valued key is exactly
the stable partition putting the trusted entries first. -/
def stableSortByTrust (l : List SearchResult) : List SearchResult :=
  l.filter (fun r => r.is_trusted) ++ l.filter (fun r => !r.is_trusted)

/-- `EduSearchPipeline.filter_results` (lines 385-433). -/
def filter_results (raw : List RawHit) (trusted : List String) (strict : Bool) :
    List SearchResult :=
  stableSortByTrust (filterResultsGo trusted strict [] raw)

/-- Python dict lookup `m.get(k, default)` on an association list kept in the
dict's insertion order. -/
def assocGet {β : Type} (m : List (String × β)) (k : String) : Option β :=
  (m.find? (fun kv => kv.1 == k)).map Prod.snd

/-- `TRUSTED_DOMAINS_CORE` of `edu_search_pipeline.py:90`. -/
def TRUSTED_DOMAINS_CORE : List String :=
  ["khanacademy.org", "ck12.org", "education.com",
   "pbslearningmedia.org", "byjus.com", "openstax.org",
   "brilliant.org", "britannica.com"]

/-- `TRUSTED_DOMAINS_BY_BAND` of `edu_search_pipeline.py:96` (nested dicts as
association lists in insertion order). -/
def TRUSTED_DOMAINS_BY_BAND : List (String × List (String × List String)) :=
  [("K-4",
    [("math", ["abcya.com", "coolmath4kids.com", "mathseeds.com"]),
     ("science", ["kids.nationalgeographic.com", "sciencebob.com"]),
     ("social_studies", ["ducksters.com", "pbskids.org"]),
     ("language_arts", ["starfall.com", "readworks.org", "storylineonline.net"]),
     ("reference", ["kids.britannica.com", "ducksters.com", "infoplease.com"])]),
   ("5-8",
    [("math", ["ixl.com", "mathway.com", "desmos.com"]),
     ("science", ["byjus.com", "ck12.org"]),
     ("reference", ["kids.britannica.com", "infoplease.com"])]),
   ("9-12",
    [("math", ["desmos.com", "brilliant.org"]),
     ("science", ["biointeractive.org", "labxchange.org", "ck12.org"]),
     ("history", ["crashcourse.com", "bighistoryproject.com"]),
     ("reference", ["scholarpedia.org", "citizendium.org", "openstax.org"])])]

/-- `CONTENT_TYPE_KEYWORDS` of `edu_search_pipeline.py:73`. -/
def CONTENT_TYPE_KEYWORDS : List (String × List String) :=
  [("concept_explainer", ["+tutorial", "+lesson", "+explained", "+introduction"]),
   ("reasoning", ["+derivation", "+proof", "+worked-example", "+step-by-step"]),
   ("material_visual", ["+flowchart", "+diagram", "+infographic", "+chart"]),
   ("material_equation", ["+equation", "+formula", "+calculation"]),
   ("practice", ["+worksheet", "+exercise", "+quiz", "+practice-problems"]),
   ("video", ["+video", "+lecture"]),
   ("simulation", ["+simulation", "+interactive", "+virtual-lab"]),
   ("printable", ["filetype:pdf", "+worksheet", "+printable"])]

/-- `GRADE_EXCLUSIONS` of `edu_search_pipeline.py:84`. -/
def GRADE_EXCLUSIONS : List (String × String) :=
  [("K-4", "-college -university -\"high school\" -\"AP \" -calculus -thesis"),
   ("5-8", "-college -university -\"AP \" -thesis -doctoral"),
   ("9-12", "-\"elementary school\" -kindergarten -\"grade 3\" -\"grade 2\"")]

/-- `EduSearchPipeline._get_grade_band` (lines 187-191).  The pipeline calls
it after `int(grade)`, so the argument is an integer here. -/
def getGradeBand (grade : Int) : String :=
  if grade ≤ 4 then "K-4" else if grade ≤ 8 then "5-8" else "9-12"

/-- First-occurrence-preserving deduplication: Python's
`list(dict.fromkeys(domains))` of `edu_search_pipeline.py:242`. -/
def firstDedupGo (seen : List String) : List String → List String
  | [] => []
  | a :: l => if a ∈ seen then firstDedupGo seen l else a :: firstDedupGo (a :: seen) l

/-- `list(dict.fromkeys(l))`. -/
def firstDedup (l : List String) : List String := firstDedupGo [] l

/-- The band's subject map `self.band_domains.get(band, {})` of line 217. -/
def bandMapFor (grade : Int) : List (String × List String) :=
  (assocGet TRUSTED_DOMAINS_BY_BAND (getGradeBand grade)).getD []

/-- The fuzzy subject match of lines 220-226: the first band key where
either string contains the other (case-insensitively on the subject),
contributing its domain list; no match contributes nothing. -/
def subjectDomains (grade : Int) (subject : String) : List String :=
  (((bandMapFor grade).find? (fun kv =>
      pyContains (pyLower subject) kv.1 || pyContains kv.1 (pyLower subject))).map
    Prod.snd).getD []

/-- The band's `reference` list, always appended (lines 235-236). -/
def referenceDomains (grade : Int) : List String :=
  (assocGet (bandMapFor grade) "reference").getD []

/-- `EduSearchPipeline.resolve_domains` (lines 202-244) with the pipeline's
default configuration (`core_domains`/`band_domains` not overridden).  A
missing `extra_domains` is the empty list (`if extra_domains:` extends by
nothing either way).  `int(grade)` is the identity on integers. -/
def resolve_domains (grade : Int) (subject : String) (extraDomains : List String) :
    List String :=
  firstDedup (TRUSTED_DOMAINS_CORE ++ subjectDomains grade subject ++
    referenceDomains grade ++ extraDomains)

/-- `EduSearchPipeline._build_site_filter` (lines 193-198). -/
def buildSiteFilter : List String → String
  | [] => ""
  | [d] => "site:" ++ d
  | ds => "(" ++ String.intercalate " OR " (ds.map (fun d => "site:" ++ d)) ++ ")"

/-- `EduSearchPipeline.build_query` (lines 248-301) with the default content
keyword configuration.  Python truthiness: an absent or empty `subtopic`, an
absent `content_types` list and an absent or empty `domains` list all
contribute nothing. -/
def build_query (grade : Int) (subject topic : String) (subtopic : Option String)
    (contentTypes : Option (List String)) (domains : Option (List String)) : String :=
  let parts0 := ["\"Grade " ++ toString grade ++ "\"",
                 "\"" ++ subject ++ "\"", "\"" ++ topic ++ "\""]
  let parts1 := parts0 ++ (match subtopic with
    | some st => if st = "" then [] else ["\"" ++ st ++ "\""]
    | none => [])
  let parts2 := parts1 ++
    ((contentTypes.getD []).map
      (fun ct => ((assocGet CONTENT_TYPE_KEYWORDS ct).getD []).take 2)).flatten
  let excl := (assocGet GRADE_EXCLUSIONS (getGradeBand grade)).getD ""
  let parts3 := parts2 ++ (if excl = "" then [] else [excl])
  let parts4 := parts3 ++ (match domains with
    | some ds =>
      if ds.isEmpty then []
      else if buildSiteFilter ds = "" then [] else [buildSiteFilter ds]
    | none => [])
  String.intercalate " " parts4

/-! ## The fetch loop

`EduSearchPipeline.fetch` (lines 305-381) runs `ddgs.text` inside a double
loop: three backends in priority order, up to `MAX_RETRIES` attempts each.
The backend is abstracted as an oracle mapping a backend name and an attempt
index (0-based) to either the raw hits that attempt returns or the string of
the exception it raises.  `random.uniform(0, 1)` is abstracted as a `jitter`
function, and `time.sleep` delays are recorded as rationals. -/

/-- `MAX_RETRIES` of `edu_search_pipeline.py:122`. -/
def MAX_RETRIES : Nat := 3

/-- `BASE_DELAY` of `edu_search_pipeline.py:123` (the float `2.0`). -/
def BASE_DELAY : ℚ := 2

/-- The backend rotation order of `edu_search_pipeline.py:319`. -/
def backends : List String := ["auto", "lite", "html"]

/-- The rate-limit classifier of lines 354-358: the lower-cased exception
text contains one of the listed markers. -/
def isRateLimit (e : String) : Bool :=
  ["418", "202", "ratelimit", "rate limit", "too many"].any
    (fun s => pyContains (pyLower e) s)

/-- What one backend's inner retry loop did: its final outcome, how many
attempts it made, and the backoff delays it slept (in order). -/
structure BackendRun where
  result : Except String (List RawHit)
  attempts : Nat
  delays : List ℚ
deriving Repr

/-- The inner `for attempt in range(MAX_RETRIES)` loop of lines 324-372 for
one backend, started at `attempt` with `fuel` attempts remaining: a
successful attempt returns at once; a rate-limited attempt sleeps
`BASE_DELAY * 2 ^ attempt + jitter attempt` and retries (the sleep happens
even when it was the last attempt); any other error breaks out at once. -/
def runBackend (o : Nat → Except String (List RawHit)) (jitter : Nat → ℚ) :
    Nat → Nat → BackendRun
  | _, 0 => ⟨Except.error "", 0, []⟩
  | attempt, fuel + 1 =>
    match o attempt with
    | Except.ok hits => ⟨Except.ok hits, 1, []⟩
    | Except.error e =>
      if isRateLimit e then
        if fuel = 0 then
          ⟨Except.error e, 1, [BASE_DELAY * 2 ^ attempt + jitter attempt]⟩
        else
          let rest := runBackend o jitter (attempt + 1) fuel
          ⟨rest.result, rest.attempts + 1,
           (BASE_DELAY * 2 ^ attempt + jitter attempt) :: rest.delays⟩
      else ⟨Except.error e, 1, []⟩

/-- What the whole fetch did: its outcome (`Except.error` models the raised
`DDGSearchError`, carrying `last_error`), and the per-backend runs in the
order the backends were tried. -/
structure FetchRun where
  result : Except String (List RawHit)
  trace : List (String × BackendRun)
deriving Repr

/-- The outer `for backend in backends` loop of lines 323-374, threading
`last_error` (lines 320, 352): stop at the first backend whose run
succeeds, otherwise carry its last error to the next backend, and raise it
(`DDGSearchError`, line 381) when the list is exhausted. -/
def fetchGo (o : String → Nat → Except String (List RawHit))
    (jitter : String → Nat → ℚ) : List String → String → FetchRun
  | [], lastError => ⟨Except.error lastError, []⟩
  | b :: rest, _ =>
    let run := runBackend (o b) (jitter b) 0 MAX_RETRIES
    match run.result with
    | Except.ok hits => ⟨Except.ok hits, [(b, run)]⟩
    | Except.error e =>
      let r := fetchGo o jitter rest e
      ⟨r.result, (b, run) :: r.trace⟩

/-- `EduSearchPipeline.fetch` over the backend oracle `o` and jitter source
`jitter`.  (`last_error` starts as Python `None`; the initial `""` is never
raised because every backend makes at least one attempt.) -/
def fetchModel (o : String → Nat → Except String (List RawHit))
    (jitter : String → Nat → ℚ) : FetchRun :=
  fetchGo o jitter backends ""

/-! ## The search orchestrator

`EduSearchPipeline.search` (lines 437-499).  The whole `fetch` call is
abstracted as an oracle from the query string and the `max_results`
argument to either raw hits or a raised exception's text; `region` and
`safesearch` are passed through unchanged and are dropped here.  The
queries issued to `fetch` are recorded in order. -/

/-- What one `search` call did: its returned results and the
`(query, max_results)` arguments of each `fetch` call it made, in order. -/
structure SearchRun where
  results : List SearchResult
  queriesIssued : List (String × Int)
deriving Repr

/-- `EduSearchPipeline.search`: the strict attempt (site-filtered query)
with any `fetch`/`filter_results` exception swallowed into `[]`, then the
relaxed fallback (query rebuilt with `domains=None`, same resolved domain
list and same strict flag) exactly when the strict attempt's result list is
empty, its own exception also swallowed. -/
def searchRun (fetchO : String → Int → Except String (List RawHit))
    (grade : Int) (subject topic : String) (subtopic : Option String)
    (contentTypes : Option (List String)) (extraDomains : List String)
    (maxResults : Int) (strictDomainFilter : Bool) : SearchRun :=
  let domains := resolve_domains grade subject extraDomains
  let query := build_query grade subject topic subtopic contentTypes (some domains)
  let primary : List SearchResult :=
    match fetchO query maxResults with
    | Except.ok raw => filter_results raw domains strictDomainFilter
    | Except.error _ => []
  if primary.isEmpty then
    let fallbackQuery := build_query grade subject topic subtopic contentTypes none
    match fetchO fallbackQuery maxResults with
    | Except.ok raw =>
      ⟨filter_results raw domains strictDomainFilter,
       [(query, maxResults), (fallbackQuery, maxResults)]⟩
    | Except.error _ => ⟨[], [(query, maxResults), (fallbackQuery, maxResults)]⟩
  else ⟨primary, [(query, maxResults)]⟩

/-- The strict-phase query of `search` (lines 460-463): built over the
resolved domain list, so it carries the site-filter clause. -/
def primaryQuery (grade : Int) (subject topic : String) (subtopic : Option String)
    (contentTypes : Option (List String)) (extraDomains : List String) : String :=
  build_query grade subject topic subtopic contentTypes
    (some (resolve_domains grade subject extraDomains))

/-- The fallback query of `search` (line 477): rebuilt with `domains=None`,
so `_build_site_filter` never runs and no `site:` clause is added. -/
def fallbackQuery (grade : Int) (subject topic : String) (subtopic : Option String)
    (contentTypes : Option (List String)) : String :=
  build_query grade subject topic subtopic contentTypes none

/-- The strict attempt's result list (lines 465-470): the fetched hits
filtered against the resolved domains with the caller's strict flag, any
fetch exception swallowed into `[]`. -/
def strictAttempt (fetchO : String → Int → Except String (List RawHit))
    (grade : Int) (subject topic : String) (subtopic : Option String)
    (contentTypes : Option (List String)) (extraDomains : List String)
    (maxResults : Int) (strictDomainFilter : Bool) : List SearchResult :=
  match fetchO (primaryQuery grade subject topic subtopic contentTypes extraDomains)
      maxResults with
  | Except.ok raw =>
    filter_results raw (resolve_domains grade subject extraDomains) strictDomainFilter
  | Except.error _ => []

/-! ## Concrete inputs used by the claim instances -/

/-- The parent/child raw-hit pair of the specification's ResultFilter
example. -/
def parentChildHits : List RawHit :=
  [{ url := "https://a.com/" }, { url := "https://a.com/unit/page/" }]

/-- Sixteen raw hits with sixteen distinct URLs on distinct hosts. -/
def sixteenHits : List RawHit :=
  [{ url := "https://s01.com/a" }, { url := "https://s02.com/a" },
   { url := "https://s03.com/a" }, { url := "https://s04.com/a" },
   { url := "https://s05.com/a" }, { url := "https://s06.com/a" },
   { url := "https://s07.com/a" }, { url := "https://s08.com/a" },
   { url := "https://s09.com/a" }, { url := "https://s10.com/a" },
   { url := "https://s11.com/a" }, { url := "https://s12.com/a" },
   { url := "https://s13.com/a" }, { url := "https://s14.com/a" },
   { url := "https://s15.com/a" }, { url := "https://s16.com/a" }]

/-- Index of the first occurrence of `x` in a list (the list's length when
`x` is absent). -/
def firstIdx (x : String) : List String → Nat
  | [] => 0
  | a :: l => if a = x then 0 else firstIdx x l + 1

/-! ## First-occurrence deduplication -/

theorem firstIdx_cons (x a : String) (l : List String) :
    firstIdx x (a :: l) = if a = x then 0 else firstIdx x l + 1 := rfl

theorem mem_firstDedupGo (x : String) :
    ∀ (seen l : List String), x ∈ firstDedupGo seen l ↔ x ∈ l ∧ x ∉ seen := by
  intro seen l
  induction l generalizing seen with
  | nil => simp [firstDedupGo]
  | cons a t ih =>
    by_cases ha : a ∈ seen
    · rw [firstDedupGo, if_pos ha, ih]
      constructor
      · rintro ⟨hx, hs⟩
        exact ⟨List.mem_cons_of_mem _ hx, hs⟩
      · rintro ⟨hx, hs⟩
        rcases List.mem_cons.mp hx with rfl | hx
        · exact absurd ha hs
        · exact ⟨hx, hs⟩
    · rw [firstDedupGo, if_neg ha]
      constructor
      · intro hx
        rcases List.mem_cons.mp hx with rfl | hx
        · exact ⟨List.mem_cons_self _ _, ha⟩
        · rcases (ih _).mp hx with ⟨h1, h2⟩
          exact ⟨List.mem_cons_of_mem _ h1,
            fun hs => h2 (List.mem_cons_of_mem _ hs)⟩
      · rintro ⟨hx, hs⟩
        rcases List.mem_cons.mp hx with rfl | hx
        · exact List.mem_cons_self _ _
        · by_cases hxa : x = a
          · subst hxa
            exact List.mem_cons_self _ _
          · refine List.mem_cons_of_mem _ ((ih _).mpr ⟨hx, fun h => ?_⟩)
            rcases List.mem_cons.mp h with h | h
            · exact hxa h
            · exact hs h

theorem nodup_firstDedupGo : ∀ (seen l : List String), (firstDedupGo seen l).Nodup := by
  intro seen l
  induction l generalizing seen with
  | nil => simp [firstDedupGo]
  | cons a t ih =>
    by_cases ha : a ∈ seen
    · rw [firstDedupGo, if_pos ha]
      exact ih seen
    · rw [firstDedupGo, if_neg ha]
      refine List.nodup_cons.mpr ⟨fun hmem => ?_, ih _⟩
      exact ((mem_firstDedupGo a _ t).mp hmem).2 (List.mem_cons_self _ _)

theorem pairwise_firstIdx_firstDedupGo :
    ∀ (seen l : List String),
      (firstDedupGo seen l).Pairwise (fun a b => firstIdx a l < firstIdx b l) := by
  intro seen l
  induction l generalizing seen with
  | nil => simp [firstDedupGo]
  | cons a t ih =>
    by_cases ha : a ∈ seen
    · rw [firstDedupGo, if_pos ha]
      refine List.Pairwise.imp_of_mem ?_ (ih seen)
      intro x y hx hy hlt
      have hxa : ¬ a = x := fun h => ((mem_firstDedupGo x seen t).mp hx).2 (h ▸ ha)
      have hya : ¬ a = y := fun h => ((mem_firstDedupGo y seen t).mp hy).2 (h ▸ ha)
      rw [firstIdx_cons, if_neg hxa, firstIdx_cons, if_neg hya]
      omega
    · rw [firstDedupGo, if_neg ha]
      refine List.Pairwise.cons ?_ ?_
      · intro y hy
        have hya : ¬ a = y := fun h =>
          ((mem_firstDedupGo y _ t).mp hy).2 (by rw [← h]; exact List.mem_cons_self a seen)
        rw [firstIdx_cons, if_pos rfl, firstIdx_cons, if_neg hya]
        omega
      · refine List.Pairwise.imp_of_mem ?_ (ih (a :: seen))
        intro x y hx hy hlt
        have hxa : ¬ a = x := fun h =>
          ((mem_firstDedupGo x _ t).mp hx).2 (by rw [← h]; exact List.mem_cons_self a seen)
        have hya : ¬ a = y := fun h =>
          ((mem_firstDedupGo y _ t).mp hy).2 (by rw [← h]; exact List.mem_cons_self a seen)
        rw [firstIdx_cons, if_neg hxa, firstIdx_cons, if_neg hya]
        omega

/-- C9: `resolve_domains` returns a list with no duplicate entries that
preserves the first-occurrence order of the concatenation
core ++ band-subject ++ band-reference ++ extra (its members are exactly the
concatenation's members, and its order is by strictly increasing index of
first occurrence in the concatenation); determinism is inherent in it being
a pure function of its arguments; and an unmatched subject (no band key
contains or is contained in the lowered subject) contributes nothing, the
output degrading to the core, band-reference and extra domains only. -/
theorem resolve_domains_spec (grade : Int) (subject : String) (extra : List String) :
    (resolve_domains grade subject extra).Nodup ∧
    (∀ a, a ∈ resolve_domains grade subject extra ↔
      a ∈ TRUSTED_DOMAINS_CORE ++ subjectDomains grade subject ++
          referenceDomains grade ++ extra) ∧
    (resolve_domains grade subject extra).Pairwise (fun a b =>
      firstIdx a (TRUSTED_DOMAINS_CORE ++ subjectDomains grade subject ++
          referenceDomains grade ++ extra) <
      firstIdx b (TRUSTED_DOMAINS_CORE ++ subjectDomains grade subject ++
          referenceDomains grade ++ extra)) ∧
    ((∀ kv ∈ bandMapFor grade,
        pyContains (pyLower subject) kv.1 = false ∧
        pyContains kv.1 (pyLower subject) = false) →
      resolve_domains grade subject extra =
        firstDedup (TRUSTED_DOMAINS_CORE ++ referenceDomains grade ++ extra)) := by
  refine ⟨nodup_firstDedupGo [] _, ?_, pairwise_firstIdx_firstDedupGo [] _, ?_⟩
  · intro a
    rw [resolve_domains, firstDedup, mem_firstDedupGo]
    simp
  · intro hnone
    have hfind : ((bandMapFor grade).find? fun kv =>
        pyContains (pyLower subject) kv.1 || pyContains kv.1 (pyLower subject)) = none := by
      rw [List.find?_eq_none]
      intro kv hkv
      rcases hnone kv hkv with ⟨h1, h2⟩
      simp [h1, h2]
    rw [resolve_domains, subjectDomains, hfind]
    simp

/-! ## The filter loop -/

theorem filterResultsGo_cons (trusted : List String) (strict : Bool)
    (seen : List String) (h : RawHit) (t : List RawHit) :
    filterResultsGo trusted strict seen (h :: t) =
      if h.url = "" then filterResultsGo trusted strict seen t
      else if normUrl h.url ∈ seen then filterResultsGo trusted strict seen t
      else if URL_EXCLUDE_PATTERNS.any (fun pat => pyContains (pyLower h.url) pat) then
        filterResultsGo trusted strict (normUrl h.url :: seen) t
      else if strict && !(trusted.any fun td => pyContains (domainOf h.url) td) then
        filterResultsGo trusted strict (normUrl h.url :: seen) t
      else
        { title := h.title, url := h.url, snippet := h.snippet,
          domain := domainOf h.url,
          is_trusted := trusted.any fun td => pyContains (domainOf h.url) td } ::
          filterResultsGo trusted strict (normUrl h.url :: seen) t := rfl

theorem filterResultsGo_fields (trusted : List String) (strict : Bool) :
    ∀ (l : List RawHit) (seen : List String) (r : SearchResult),
      r ∈ filterResultsGo trusted strict seen l →
      r.domain = domainOf r.url ∧
      r.is_trusted = (trusted.any fun td => pyContains r.domain td) ∧
      (strict = true → r.is_trusted = true) := by
  intro l
  induction l with
  | nil =>
    intro seen r hr
    simp [filterResultsGo] at hr
  | cons h t ih =>
    intro seen r hr
    rw [filterResultsGo_cons] at hr
    split_ifs at hr with h1 h2 h3 h4
    · exact ih _ r hr
    · exact ih _ r hr
    · exact ih _ r hr
    · exact ih _ r hr
    · rcases List.mem_cons.mp hr with rfl | hr
      · refine ⟨rfl, rfl, fun hs => ?_⟩
        subst hs
        simpa using h4
      · exact ih _ r hr

theorem filterResultsGo_strict_untrusted (trusted : List String) :
    ∀ (l : List RawHit) (seen : List String),
      (∀ h ∈ l, (trusted.any fun td => pyContains (domainOf h.url) td) = false) →
      filterResultsGo trusted true seen l = [] := by
  intro l
  induction l with
  | nil => intro seen _; rfl
  | cons h t ih =>
    intro seen hall
    have hrest : ∀ x ∈ t, (trusted.any fun td => pyContains (domainOf x.url) td) = false :=
      fun x hx => hall x (List.mem_cons_of_mem _ hx)
    rw [filterResultsGo_cons]
    split_ifs with h1 h2 h3 h4
    · exact ih _ hrest
    · exact ih _ hrest
    · exact ih _ hrest
    · exact ih _ hrest
    · exfalso
      rw [hall h (List.mem_cons_self _ _)] at h4
      simp at h4

theorem filterResultsGo_length_le (trusted : List String) (strict : Bool) :
    ∀ (l : List RawHit) (seen : List String),
      (filterResultsGo trusted strict seen l).length ≤ l.length := by
  intro l
  induction l with
  | nil => intro seen; simp [filterResultsGo]
  | cons h t ih =>
    intro seen
    rw [filterResultsGo_cons]
    split_ifs with h1 h2 h3 h4
    · exact Nat.le_trans (ih seen) (Nat.le_succ _)
    · exact Nat.le_trans (ih seen) (Nat.le_succ _)
    · exact Nat.le_trans (ih _) (Nat.le_succ _)
    · exact Nat.le_trans (ih _) (Nat.le_succ _)
    · simpa using ih (normUrl h.url :: seen)

theorem filterResultsGo_norm_not_seen (trusted : List String) (strict : Bool) :
    ∀ (l : List RawHit) (seen : List String) (r : SearchResult),
      r ∈ filterResultsGo trusted strict seen l → normUrl r.url ∉ seen := by
  intro l
  induction l with
  | nil =>
    intro seen r hr
    simp [filterResultsGo] at hr
  | cons h t ih =>
    intro seen r hr
    rw [filterResultsGo_cons] at hr
    split_ifs at hr with h1 h2 h3 h4
    · exact ih _ r hr
    · exact ih _ r hr
    · exact fun hs => ih _ r hr (List.mem_cons_of_mem _ hs)
    · exact fun hs => ih _ r hr (List.mem_cons_of_mem _ hs)
    · rcases List.mem_cons.mp hr with rfl | hr
      · exact h2
      · exact fun hs => ih _ r hr (List.mem_cons_of_mem _ hs)

theorem filterResultsGo_norm_nodup (trusted : List String) (strict : Bool) :
    ∀ (l : List RawHit) (seen : List String),
      ((filterResultsGo trusted strict seen l).map fun r => normUrl r.url).Nodup := by
  intro l
  induction l with
  | nil => intro seen; simp [filterResultsGo]
  | cons h t ih =>
    intro seen
    rw [filterResultsGo_cons]
    split_ifs with h1 h2 h3 h4
    · exact ih seen
    · exact ih seen
    · exact ih _
    · exact ih _
    · refine List.nodup_cons.mpr ⟨fun hmem => ?_, ih _⟩
      rcases List.mem_map.mp hmem with ⟨r, hr, hnorm⟩
      exact filterResultsGo_norm_not_seen trusted strict t _ r hr
        (hnorm ▸ List.mem_cons_self _ _)

theorem filterResultsGo_drop_seen (trusted : List String) (strict : Bool)
    (d : RawHit) :
    ∀ (l2 : List RawHit) (seen : List String) (l3 : List RawHit),
      normUrl d.url ∈ seen →
      filterResultsGo trusted strict seen (l2 ++ d :: l3) =
        filterResultsGo trusted strict seen (l2 ++ l3) := by
  intro l2
  induction l2 with
  | nil =>
    intro seen l3 hs
    simp only [List.nil_append]
    rw [filterResultsGo_cons]
    by_cases h1 : d.url = ""
    · rw [if_pos h1]
    · rw [if_neg h1, if_pos hs]
  | cons x xs ih =>
    intro seen l3 hs
    simp only [List.cons_append]
    rw [filterResultsGo_cons, filterResultsGo_cons]
    split_ifs with h1 h2 h3 h4
    · exact ih seen l3 hs
    · exact ih seen l3 hs
    · exact ih _ l3 (List.mem_cons_of_mem _ hs)
    · exact ih _ l3 (List.mem_cons_of_mem _ hs)
    · exact congrArg _ (ih _ l3 (List.mem_cons_of_mem _ hs))

theorem filterResultsGo_shadow (trusted : List String) (strict : Bool)
    (h d : RawHit) (hne : h.url ≠ "") (heq : normUrl d.url = normUrl h.url) :
    ∀ (l1 : List RawHit) (seen : List String) (l2 l3 : List RawHit),
      filterResultsGo trusted strict seen (l1 ++ h :: l2 ++ d :: l3) =
        filterResultsGo trusted strict seen (l1 ++ h :: l2 ++ l3) := by
  intro l1
  induction l1 with
  | nil =>
    intro seen l2 l3
    simp only [List.nil_append, List.cons_append]
    rw [filterResultsGo_cons, filterResultsGo_cons, if_neg hne, if_neg hne]
    by_cases h2 : normUrl h.url ∈ seen
    · rw [if_pos h2, if_pos h2]
      exact filterResultsGo_drop_seen trusted strict d l2 seen l3 (heq ▸ h2)
    · rw [if_neg h2, if_neg h2]
      have hs : normUrl d.url ∈ normUrl h.url :: seen := by
        rw [heq]
        exact List.mem_cons_self _ _
      split_ifs with h3 h4
      · exact filterResultsGo_drop_seen trusted strict d l2 _ l3 hs
      · exact filterResultsGo_drop_seen trusted strict d l2 _ l3 hs
      · exact congrArg _ (filterResultsGo_drop_seen trusted strict d l2 _ l3 hs)
  | cons x xs ih =>
    intro seen l2 l3
    simp only [List.cons_append]
    rw [filterResultsGo_cons, filterResultsGo_cons]
    split_ifs with h1 h2 h3 h4
    · exact ih seen l2 l3
    · exact ih seen l2 l3
    · exact ih _ l2 l3
    · exact ih _ l2 l3
    · exact congrArg _ (ih _ l2 l3)

theorem filterResultsGo_skip_empty (trusted : List String) (strict : Bool)
    (h : RawHit) (hne : h.url = "") :
    ∀ (l1 : List RawHit) (seen : List String) (l2 : List RawHit),
      filterResultsGo trusted strict seen (l1 ++ h :: l2) =
        filterResultsGo trusted strict seen (l1 ++ l2) := by
  intro l1
  induction l1 with
  | nil =>
    intro seen l2
    simp only [List.nil_append]
    rw [filterResultsGo_cons, if_pos hne]
  | cons x xs ih =>
    intro seen l2
    simp only [List.cons_append]
    rw [filterResultsGo_cons, filterResultsGo_cons]
    split_ifs with h1 h2 h3 h4
    · exact ih seen l2
    · exact ih seen l2
    · exact ih _ l2
    · exact ih _ l2
    · exact congrArg _ (ih _ l2)

theorem mem_stableSortByTrust (r : SearchResult) (l : List SearchResult) :
    r ∈ stableSortByTrust l ↔ r ∈ l := by
  rw [stableSortByTrust, List.mem_append]
  constructor
  · rintro (hr | hr)
    · exact (List.mem_filter.mp hr).1
    · exact (List.mem_filter.mp hr).1
  · intro hr
    by_cases ht : r.is_trusted
    · exact Or.inl (List.mem_filter.mpr ⟨hr, ht⟩)
    · exact Or.inr (List.mem_filter.mpr ⟨hr, by simpa using ht⟩)

/-- C6: every emitted result's `is_trusted` flag is exactly "its domain
contains some trusted-domain entry"; under `strict = true` only trusted
results are returned, so an input whose every hit has an untrusted domain
yields `[]`; and under `strict = false` the output is the strict partition
of the surviving candidates (which are in original input order) with the
trusted group first, each group keeping its relative order, and with
exactly the surviving candidates as members. -/
theorem filter_results_trust_and_rank (raw : List RawHit) (trusted : List String) :
    (∀ (strict : Bool) (r : SearchResult), r ∈ filter_results raw trusted strict →
      r.is_trusted = (trusted.any fun td => pyContains r.domain td)) ∧
    (∀ r : SearchResult, r ∈ filter_results raw trusted true → r.is_trusted = true) ∧
    ((∀ h ∈ raw, (trusted.any fun td => pyContains (domainOf h.url) td) = false) →
      filter_results raw trusted true = []) ∧
    (filter_results raw trusted false =
      ((filterResultsGo trusted false [] raw).filter fun r => r.is_trusted) ++
      ((filterResultsGo trusted false [] raw).filter fun r => !r.is_trusted)) ∧
    (∀ r : SearchResult, r ∈ filter_results raw trusted false ↔
      r ∈ filterResultsGo trusted false [] raw) := by
  refine ⟨?_, ?_, ?_, rfl, ?_⟩
  · intro strict r hr
    exact (filterResultsGo_fields trusted strict raw [] r
      ((mem_stableSortByTrust r _).mp hr)).2.1
  · intro r hr
    exact (filterResultsGo_fields trusted true raw [] r
      ((mem_stableSortByTrust r _).mp hr)).2.2 rfl
  · intro hall
    rw [filter_results, filterResultsGo_strict_untrusted trusted raw [] hall]
    rfl
  · intro r
    exact mem_stableSortByTrust r _

/-- C10: the filter emits at most one result per normalized URL; a later hit
whose normalized URL equals that of any earlier hit with a nonempty URL is
dropped, even when that earlier hit was itself rejected (the key is recorded
before the exclusion-pattern check); concretely, a first hit rejected by the
`/login` pattern shadows a later clean duplicate, which would have survived
on its own. -/
theorem filter_results_dedup_before_block :
    (∀ (raw : List RawHit) (trusted : List String) (strict : Bool),
      ((filter_results raw trusted strict).map fun r => normUrl r.url).Nodup) ∧
    (∀ (trusted : List String) (strict : Bool) (l1 l2 l3 : List RawHit) (h d : RawHit),
      h.url ≠ "" → normUrl d.url = normUrl h.url →
      filter_results (l1 ++ h :: l2 ++ d :: l3) trusted strict =
        filter_results (l1 ++ h :: l2 ++ l3) trusted strict) ∧
    filter_results [{ url := "https://a.com/x?y=/login" }, { url := "https://a.com/x" }]
      [] false = [] ∧
    filter_results [{ url := "https://a.com/x" }] [] false ≠ [] := by
  refine ⟨?_, ?_, by decide, by decide⟩
  · intro raw trusted strict
    have hperm : (stableSortByTrust (filterResultsGo trusted strict [] raw)).Perm
        (filterResultsGo trusted strict [] raw) := List.filter_append_perm _ _
    exact ((hperm.map fun r => normUrl r.url).symm).nodup
      (filterResultsGo_norm_nodup trusted strict raw [])
  · intro trusted strict l1 l2 l3 h d hne heq
    exact congrArg stableSortByTrust (filterResultsGo_shadow trusted strict h d hne heq l1 [] l2 l3)

/-- C4 counterexample: sixteen distinct raw hits survive as sixteen results,
so the filter does not truncate to 15. -/
theorem filter_results_cap_cex :
    ¬ (filter_results sixteenHits [] false).length ≤ 15 := by decide

/-- C4 amended: the filter stage applies no fixed cap at all — its output
length is bounded only by the input length (every input hit yields at most
one result), and a sixteen-hit input does yield sixteen results; the
caller's `max_results` only bounds the upstream fetch. -/
theorem filter_results_no_cap :
    (∀ (raw : List RawHit) (trusted : List String) (strict : Bool),
      (filter_results raw trusted strict).length ≤ raw.length) ∧
    (filter_results sixteenHits [] false).length = 16 := by
  refine ⟨?_, by decide⟩
  intro raw trusted strict
  have hperm : (stableSortByTrust (filterResultsGo trusted strict [] raw)).Perm
      (filterResultsGo trusted strict [] raw) := List.filter_append_perm _ _
  calc (filter_results raw trusted strict).length
      = (filterResultsGo trusted strict [] raw).length := hperm.length_eq
    _ ≤ raw.length := filterResultsGo_length_le trusted strict raw []

/-- C3 counterexample: on the specification's own example input the parent
URL is not removed — both hits come back, the parent first, refuting "the
first hit is removed and the second is returned". -/
theorem filter_results_parent_not_removed_cex :
    ((filter_results parentChildHits [] false).map fun r => r.url) =
      ["https://a.com/", "https://a.com/unit/page/"] ∧
    ¬ ((filter_results parentChildHits [] false).map fun r => r.url) =
        ["https://a.com/unit/page/"] := by decide

/-- C3 amended: result filtering performs no parent/child deduplication
(only exact normalized-URL deduplication), so for the input
`[{url: "https://a.com/"}, {url: "https://a.com/unit/page/"}]` both hits
survive and are returned in input order, the parent included. -/
theorem filter_results_keeps_parent_and_child :
    filter_results parentChildHits [] false =
      [{ title := "", url := "https://a.com/", snippet := "",
         domain := "a.com", is_trusted := false },
       { title := "", url := "https://a.com/unit/page/", snippet := "",
         domain := "a.com", is_trusted := false }] := by decide

/-- C7: a hit whose domain carries a pattern of the repository's global
blocked-domain configuration (the `BLOCKED_PATTERNS` default of
`ddg_scraper.py`, also the `.env` default served by `bridge.py`) passes
`filter_results` untouched: the filter checks only the excluded-path
fragments and implements no blocked-domain rejection at all. -/
theorem filter_results_ignores_blocked :
    "youtube.com" ∈ BLOCKED_PATTERNS_DEFAULT ∧
    pyContains (pyLower "https://youtube.com/watch?v=abc") "youtube.com" = true ∧
    filter_results [{ title := "t", url := "https://youtube.com/watch?v=abc",
                      snippet := "s" }] [] false =
      [{ title := "t", url := "https://youtube.com/watch?v=abc", snippet := "s",
         domain := "youtube.com", is_trusted := false }] := by decide

/-- C8 counterexample: a host of `WWW.KhanAcademy.ORG` yields the domain
`WWW.KhanAcademy.ORG` — `netloc.replace("www.", "")` removes only the
lower-case spelling and never lower-cases — so the hit is classified
untrusted even against `khanacademy.org`, refuting "yields domain
`khanacademy.org`". -/
theorem filter_results_domain_not_lowercased_cex :
    ((filter_results [{ url := "https://WWW.KhanAcademy.ORG/math" }]
        ["khanacademy.org"] false).map fun r => (r.domain, r.is_trusted)) =
      [("WWW.KhanAcademy.ORG", false)] ∧
    "WWW.KhanAcademy.ORG" ≠ "khanacademy.org" := by decide

/-- C8 amended: hits with an empty URL are dropped; the comparison key is
the URL with trailing slashes stripped, then lower-cased, then query string
and fragment stripped; and the emitted `domain` is the host with every
case-sensitive occurrence of `"www."` deleted and no lower-casing, so
`WWW.KhanAcademy.ORG` stays as is (and trust classification operates on
that unlowered string, per C6). -/
theorem filter_results_normalization :
    (∀ (trusted : List String) (strict : Bool) (l1 l2 : List RawHit) (h : RawHit),
      h.url = "" →
      filter_results (l1 ++ h :: l2) trusted strict = filter_results (l1 ++ l2) trusted strict) ∧
    (∀ (raw : List RawHit) (trusted : List String) (strict : Bool) (r : SearchResult),
      r ∈ filter_results raw trusted strict → r.domain = domainOf r.url) ∧
    normUrl "https://A.com/x?q=1#f" = "https://a.com/x" ∧
    normUrl "https://a.com/x/" = "https://a.com/x" ∧
    domainOf "https://WWW.KhanAcademy.ORG/math" = "WWW.KhanAcademy.ORG" ∧
    domainOf "https://www.khanacademy.org/math" = "khanacademy.org" := by
  refine ⟨?_, ?_, by decide, by decide, by decide, by decide⟩
  · intro trusted strict l1 l2 h hne
    exact congrArg stableSortByTrust (filterResultsGo_skip_empty trusted strict h hne l1 [] l2)
  · intro raw trusted strict r hr
    exact (filterResultsGo_fields trusted strict raw [] r
      ((mem_stableSortByTrust r _).mp hr)).1

/-! ## The fetch loop -/

theorem runBackend_zero (o : Nat → Except String (List RawHit)) (jitter : Nat → ℚ)
    (attempt : Nat) :
    runBackend o jitter attempt 0 = ⟨Except.error "", 0, []⟩ := rfl

theorem runBackend_succ (o : Nat → Except String (List RawHit)) (jitter : Nat → ℚ)
    (attempt fuel : Nat) :
    runBackend o jitter attempt (fuel + 1) =
      match o attempt with
      | Except.ok hits => ⟨Except.ok hits, 1, []⟩
      | Except.error e =>
        if isRateLimit e then
          if fuel = 0 then
            ⟨Except.error e, 1, [BASE_DELAY * 2 ^ attempt + jitter attempt]⟩
          else
            ⟨(runBackend o jitter (attempt + 1) fuel).result,
             (runBackend o jitter (attempt + 1) fuel).attempts + 1,
             (BASE_DELAY * 2 ^ attempt + jitter attempt) ::
               (runBackend o jitter (attempt + 1) fuel).delays⟩
        else ⟨Except.error e, 1, []⟩ := rfl

theorem runBackend_attempts_le (o : Nat → Except String (List RawHit))
    (jitter : Nat → ℚ) :
    ∀ (fuel attempt : Nat), (runBackend o jitter attempt fuel).attempts ≤ fuel := by
  intro fuel
  induction fuel with
  | zero => intro attempt; exact Nat.le.refl
  | succ f ih =>
    intro attempt
    rw [runBackend_succ]
    cases ho : o attempt with
    | ok hits => simp
    | error e =>
      dsimp only
      by_cases hrl : isRateLimit e = true
      · rw [if_pos hrl]
        by_cases hf : f = 0
        · rw [if_pos hf]
          simp
        · rw [if_neg hf]
          have := ih (attempt + 1)
          simpa using this
      · rw [if_neg hrl]
        simp

theorem runBackend_attempts_pos (o : Nat → Except String (List RawHit))
    (jitter : Nat → ℚ) (fuel attempt : Nat) (hf : 1 ≤ fuel) :
    1 ≤ (runBackend o jitter attempt fuel).attempts := by
  cases fuel with
  | zero => omega
  | succ f =>
    rw [runBackend_succ]
    cases ho : o attempt with
    | ok hits => simp
    | error e =>
      dsimp only
      by_cases hrl : isRateLimit e = true
      · rw [if_pos hrl]
        by_cases hzero : f = 0
        · rw [if_pos hzero]
        · rw [if_neg hzero]; simp
      · rw [if_neg hrl]

theorem runBackend_retry_only_rate_limit (o : Nat → Except String (List RawHit))
    (jitter : Nat → ℚ) :
    ∀ (fuel attempt k : Nat), k + 1 < (runBackend o jitter attempt fuel).attempts →
      ∃ e, o (attempt + k) = Except.error e ∧ isRateLimit e = true ∧
        (runBackend o jitter attempt fuel).delays.get? k =
          some (BASE_DELAY * 2 ^ (attempt + k) + jitter (attempt + k)) := by
  intro fuel
  induction fuel with
  | zero =>
    intro attempt k hk
    rw [runBackend_zero] at hk
    simp at hk
  | succ f ih =>
    intro attempt k hk
    rw [runBackend_succ] at hk ⊢
    cases ho : o attempt with
    | ok hits =>
      rw [ho] at hk
      simp at hk
    | error e =>
      rw [ho] at hk
      dsimp only at hk ⊢
      by_cases hrl : isRateLimit e = true
      · rw [if_pos hrl] at hk ⊢
        by_cases hf : f = 0
        · rw [if_pos hf] at hk
          simp at hk
        · rw [if_neg hf] at hk ⊢
          cases k with
          | zero =>
            refine ⟨e, by simpa using ho, hrl, ?_⟩
            simp
          | succ k2 =>
            have hk2 : k2 + 1 < (runBackend o jitter (attempt + 1) f).attempts := by
              simp at hk
              omega
            obtain ⟨e2, h1, h2, h3⟩ := ih (attempt + 1) k2 hk2
            refine ⟨e2, ?_, h2, ?_⟩
            · rw [show attempt + (k2 + 1) = attempt + 1 + k2 by omega]
              exact h1
            · rw [show attempt + (k2 + 1) = attempt + 1 + k2 by omega]
              simpa using h3
      · rw [if_neg hrl] at hk
        simp at hk

theorem runBackend_stop_on_other_error (o : Nat → Except String (List RawHit))
    (jitter : Nat → ℚ) :
    ∀ (fuel attempt k : Nat) (e : String),
      k < (runBackend o jitter attempt fuel).attempts →
      o (attempt + k) = Except.error e → isRateLimit e = false →
      (runBackend o jitter attempt fuel).attempts = k + 1 := by
  intro fuel
  induction fuel with
  | zero =>
    intro attempt k e hk _ _
    rw [runBackend_zero] at hk
    simp at hk
  | succ f ih =>
    intro attempt k e hk hke hnotrl
    rw [runBackend_succ] at hk ⊢
    cases ho : o attempt with
    | ok hits =>
      rw [ho] at hk
      dsimp only at hk ⊢
      cases k with
      | zero => rfl
      | succ k2 => omega
    | error e0 =>
      rw [ho] at hk
      dsimp only at hk ⊢
      by_cases hrl : isRateLimit e0 = true
      · rw [if_pos hrl] at hk ⊢
        by_cases hf : f = 0
        · rw [if_pos hf] at hk ⊢
          simp at hk ⊢
          omega
        · rw [if_neg hf] at hk ⊢
          cases k with
          | zero =>
            rw [Nat.add_zero, ho] at hke
            injection hke with he
            rw [he] at hrl
            rw [hrl] at hnotrl
            exact absurd hnotrl (by simp)
          | succ k2 =>
            have hk2 : k2 < (runBackend o jitter (attempt + 1) f).attempts := by
              simp at hk
              omega
            have hke2 : o (attempt + 1 + k2) = Except.error e := by
              rw [show attempt + 1 + k2 = attempt + (k2 + 1) by omega]
              exact hke
            have := ih (attempt + 1) k2 e hk2 hke2 hnotrl
            simp [this]
      · rw [if_neg hrl] at hk ⊢
        simp at hk
        cases k with
        | zero => simp
        | succ k2 => omega

theorem runBackend_result_is_last_attempt (o : Nat → Except String (List RawHit))
    (jitter : Nat → ℚ) :
    ∀ (fuel attempt : Nat), 1 ≤ fuel →
      o (attempt + ((runBackend o jitter attempt fuel).attempts - 1)) =
        (runBackend o jitter attempt fuel).result := by
  intro fuel
  induction fuel with
  | zero => intro attempt h; omega
  | succ f ih =>
    intro attempt _
    rw [runBackend_succ]
    cases ho : o attempt with
    | ok hits => simpa using ho
    | error e =>
      dsimp only
      by_cases hrl : isRateLimit e = true
      · rw [if_pos hrl]
        by_cases hf : f = 0
        · rw [if_pos hf]
          simpa using ho
        · rw [if_neg hf]
          have hpos := runBackend_attempts_pos o jitter f (attempt + 1) (by omega)
          have := ih (attempt + 1) (by omega)
          dsimp only
          rw [show attempt + ((runBackend o jitter (attempt + 1) f).attempts + 1 - 1) =
            attempt + 1 + ((runBackend o jitter (attempt + 1) f).attempts - 1) by omega]
          exact this
      · rw [if_neg hrl]
        simpa using ho

/-! ## The backend rotation -/

theorem fetchGo_nil (o : String → Nat → Except String (List RawHit))
    (jitter : String → Nat → ℚ) (lastError : String) :
    fetchGo o jitter [] lastError = ⟨Except.error lastError, []⟩ := rfl

theorem fetchGo_cons (o : String → Nat → Except String (List RawHit))
    (jitter : String → Nat → ℚ) (b : String) (rest : List String) (lastError : String) :
    fetchGo o jitter (b :: rest) lastError =
      match (runBackend (o b) (jitter b) 0 MAX_RETRIES).result with
      | Except.ok hits =>
        ⟨Except.ok hits, [(b, runBackend (o b) (jitter b) 0 MAX_RETRIES)]⟩
      | Except.error e =>
        ⟨(fetchGo o jitter rest e).result,
         (b, runBackend (o b) (jitter b) 0 MAX_RETRIES) :: (fetchGo o jitter rest e).trace⟩ := by
  rw [fetchGo]

theorem fetchGo_trace_names (o : String → Nat → Except String (List RawHit))
    (jitter : String → Nat → ℚ) :
    ∀ (bs : List String) (lastError : String),
      (fetchGo o jitter bs lastError).trace.map Prod.fst =
        bs.take (fetchGo o jitter bs lastError).trace.length := by
  intro bs
  induction bs with
  | nil => intro lastError; rfl
  | cons b rest ih =>
    intro lastError
    rw [fetchGo_cons]
    cases hr : (runBackend (o b) (jitter b) 0 MAX_RETRIES).result with
    | ok hits => simp
    | error e => simpa using ih e

theorem fetchGo_mem_trace (o : String → Nat → Except String (List RawHit))
    (jitter : String → Nat → ℚ) :
    ∀ (bs : List String) (lastError : String) (p : String × BackendRun),
      p ∈ (fetchGo o jitter bs lastError).trace →
      p.2 = runBackend (o p.1) (jitter p.1) 0 MAX_RETRIES := by
  intro bs
  induction bs with
  | nil =>
    intro lastError p hp
    simp [fetchGo_nil] at hp
  | cons b rest ih =>
    intro lastError p hp
    rw [fetchGo_cons] at hp
    cases hr : (runBackend (o b) (jitter b) 0 MAX_RETRIES).result with
    | ok hits =>
      rw [hr] at hp
      simp at hp
      subst hp
      rfl
    | error e =>
      rw [hr] at hp
      simp at hp
      rcases hp with rfl | hp
      · rfl
      · exact ih e p hp

theorem fetchGo_result_ok (o : String → Nat → Except String (List RawHit))
    (jitter : String → Nat → ℚ) :
    ∀ (bs : List String) (lastError : String) (hits : List RawHit),
      (fetchGo o jitter bs lastError).result = Except.ok hits →
      (∃ p, (fetchGo o jitter bs lastError).trace.getLast? = some p ∧
        p.2.result = Except.ok hits) ∧
      ∀ q ∈ (fetchGo o jitter bs lastError).trace.dropLast,
        ∃ e, q.2.result = Except.error e := by
  intro bs
  induction bs with
  | nil =>
    intro lastError hits h
    rw [fetchGo_nil] at h
    exact absurd h (by simp)
  | cons b rest ih =>
    intro lastError hits h
    rw [fetchGo_cons] at h ⊢
    cases hr : (runBackend (o b) (jitter b) 0 MAX_RETRIES).result with
    | ok hits0 =>
      rw [hr] at h
      simp at h
      subst h
      refine ⟨⟨(b, runBackend (o b) (jitter b) 0 MAX_RETRIES), by simp, hr⟩, ?_⟩
      simp
    | error e =>
      rw [hr] at h
      simp at h
      obtain ⟨⟨p, hlast, hres⟩, hdrop⟩ := ih e hits h
      have htne : (fetchGo o jitter rest e).trace ≠ [] := by
        intro hnil
        rw [hnil] at hlast
        simp at hlast
      constructor
      · refine ⟨p, ?_, hres⟩
        rw [List.getLast?_cons, hlast]
        simp [htne]
      · intro q hq
        rw [List.dropLast_cons_of_ne_nil htne] at hq
        rcases List.mem_cons.mp hq with rfl | hq
        · exact ⟨e, hr⟩
        · exact hdrop q hq

theorem fetchGo_result_error (o : String → Nat → Except String (List RawHit))
    (jitter : String → Nat → ℚ) :
    ∀ (bs : List String) (lastError : String) (e : String),
      (fetchGo o jitter bs lastError).result = Except.error e →
      (fetchGo o jitter bs lastError).trace.map Prod.fst = bs ∧
      (∀ q ∈ (fetchGo o jitter bs lastError).trace, ∃ e0, q.2.result = Except.error e0) ∧
      (bs = [] → e = lastError) ∧
      (bs ≠ [] → ∃ p, (fetchGo o jitter bs lastError).trace.getLast? = some p ∧
        p.2.result = Except.error e) := by
  intro bs
  induction bs with
  | nil =>
    intro lastError e h
    rw [fetchGo_nil] at h ⊢
    refine ⟨rfl, by simp, fun _ => ?_, by simp⟩
    simpa using h.symm
  | cons b rest ih =>
    intro lastError e h
    rw [fetchGo_cons] at h ⊢
    cases hr : (runBackend (o b) (jitter b) 0 MAX_RETRIES).result with
    | ok hits =>
      rw [hr] at h
      exact absurd h (by simp)
    | error e0 =>
      rw [hr] at h
      simp only at h
      obtain ⟨hmap, hall, hnil, hne⟩ := ih e0 e h
      refine ⟨by simpa using hmap, ?_, by simp, fun _ => ?_⟩
      · intro q hq
        simp at hq
        rcases hq with rfl | hq
        · exact ⟨e0, hr⟩
        · exact hall q hq
      · by_cases hrest : rest = []
        · subst hrest
          have he : e = e0 := hnil rfl
          have htr : (fetchGo o jitter ([] : List String) e0).trace = [] := rfl
          refine ⟨(b, runBackend (o b) (jitter b) 0 MAX_RETRIES), ?_, by rw [he]; exact hr⟩
          simp [htr]
        · obtain ⟨p, hlast, hres⟩ := hne hrest
          have htne : (fetchGo o jitter rest e0).trace ≠ [] := by
            intro hnilt
            rw [hnilt] at hlast
            simp at hlast
          refine ⟨p, ?_, hres⟩
          rw [List.getLast?_cons, hlast]
          simp [htne]

/-- C1: for every backend oracle and jitter source, `fetch` tries the
backends in priority order (the tried names are a prefix of
`["auto", "lite", "html"]`); on each backend it makes at most `MAX_RETRIES`
attempts, every retry on the same backend is preceded by a rate-limited
failure (error text containing `418`, `202`, `ratelimit`, `rate limit` or
`too many`, lower-cased) and by a recorded backoff delay of
`BASE_DELAY * 2 ^ attempt` plus jitter; any other error ends that backend's
attempts immediately (the next backend, if any, is the next trace entry);
the first successful backend attempt ends the whole fetch with its raw hits
(all earlier backends having failed); and when every backend is exhausted
the fetch raises an error carrying the final backend's last underlying
error — it never converts exhaustion into an `ok` empty list. -/
theorem fetch_retry_policy (o : String → Nat → Except String (List RawHit))
    (jitter : String → Nat → ℚ) :
    (fetchModel o jitter).trace.map Prod.fst =
      backends.take (fetchModel o jitter).trace.length ∧
    (∀ b run, (b, run) ∈ (fetchModel o jitter).trace →
      run.attempts ≤ MAX_RETRIES ∧
      (∀ k, k + 1 < run.attempts →
        ∃ e, o b k = Except.error e ∧ isRateLimit e = true ∧
          run.delays.get? k = some (BASE_DELAY * 2 ^ k + jitter b k)) ∧
      (∀ k e, k < run.attempts → o b k = Except.error e → isRateLimit e = false →
        run.attempts = k + 1)) ∧
    (∀ hits, (fetchModel o jitter).result = Except.ok hits →
      (∃ p, (fetchModel o jitter).trace.getLast? = some p ∧
        p.2.result = Except.ok hits) ∧
      ∀ q ∈ (fetchModel o jitter).trace.dropLast, ∃ e, q.2.result = Except.error e) ∧
    (∀ e, (fetchModel o jitter).result = Except.error e →
      (fetchModel o jitter).trace.map Prod.fst = backends ∧
      (∀ q ∈ (fetchModel o jitter).trace, ∃ e0, q.2.result = Except.error e0) ∧
      ∃ p, (fetchModel o jitter).trace.getLast? = some p ∧
        p.2.result = Except.error e) := by
  refine ⟨fetchGo_trace_names o jitter backends "", ?_, ?_, ?_⟩
  · intro b run hmem
    have hrun : run = runBackend (o b) (jitter b) 0 MAX_RETRIES :=
      fetchGo_mem_trace o jitter backends "" (b, run) hmem
    subst hrun
    refine ⟨runBackend_attempts_le (o b) (jitter b) MAX_RETRIES 0, ?_, ?_⟩
    · intro k hk
      have := runBackend_retry_only_rate_limit (o b) (jitter b) MAX_RETRIES 0 k hk
      simpa using this
    · intro k e hk hke hnot
      exact runBackend_stop_on_other_error (o b) (jitter b) MAX_RETRIES 0 k e hk
        (by simpa using hke) hnot
  · intro hits h
    exact fetchGo_result_ok o jitter backends "" hits h
  · intro e h
    obtain ⟨hmap, hall, _, hne⟩ := fetchGo_result_error o jitter backends "" e h
    exact ⟨hmap, hall, hne (by simp [backends])⟩

/-! ## The search orchestrator -/

theorem searchRun_eq (fetchO : String → Int → Except String (List RawHit))
    (grade : Int) (subject topic : String) (subtopic : Option String)
    (contentTypes : Option (List String)) (extraDomains : List String)
    (maxResults : Int) (strictFlag : Bool) :
    searchRun fetchO grade subject topic subtopic contentTypes extraDomains
        maxResults strictFlag =
      if (strictAttempt fetchO grade subject topic subtopic contentTypes extraDomains
          maxResults strictFlag).isEmpty then
        match fetchO (fallbackQuery grade subject topic subtopic contentTypes)
            maxResults with
        | Except.ok raw =>
          ⟨filter_results raw (resolve_domains grade subject extraDomains) strictFlag,
           [(primaryQuery grade subject topic subtopic contentTypes extraDomains, maxResults),
            (fallbackQuery grade subject topic subtopic contentTypes, maxResults)]⟩
        | Except.error _ =>
          ⟨[], [(primaryQuery grade subject topic subtopic contentTypes extraDomains, maxResults),
                (fallbackQuery grade subject topic subtopic contentTypes, maxResults)]⟩
      else
        ⟨strictAttempt fetchO grade subject topic subtopic contentTypes extraDomains
           maxResults strictFlag,
         [(primaryQuery grade subject topic subtopic contentTypes extraDomains, maxResults)]⟩ :=
  rfl

/-- C2: the strict attempt swallows any fetch exception into an empty list
and then the relaxed fallback (whose query is rebuilt with no domain list,
hence no site-filter clause) runs exactly when the strict attempt produced
an empty list; the fallback's hits are filtered with the same strict flag
against the same resolved domain set; and when the fallback also fails or
yields nothing, `search` returns `[]` (the model is a total function — no
exception escapes). -/
theorem search_strict_then_relaxed
    (fetchO : String → Int → Except String (List RawHit))
    (grade : Int) (subject topic : String) (subtopic : Option String)
    (contentTypes : Option (List String)) (extraDomains : List String)
    (maxResults : Int) (strictFlag : Bool) :
    (∀ e, fetchO (primaryQuery grade subject topic subtopic contentTypes extraDomains)
        maxResults = Except.error e →
      (searchRun fetchO grade subject topic subtopic contentTypes extraDomains
        maxResults strictFlag).queriesIssued =
        [(primaryQuery grade subject topic subtopic contentTypes extraDomains, maxResults),
         (fallbackQuery grade subject topic subtopic contentTypes, maxResults)]) ∧
    ((searchRun fetchO grade subject topic subtopic contentTypes extraDomains
        maxResults strictFlag).queriesIssued.length = 2 ↔
      strictAttempt fetchO grade subject topic subtopic contentTypes extraDomains
        maxResults strictFlag = []) ∧
    (strictAttempt fetchO grade subject topic subtopic contentTypes extraDomains
        maxResults strictFlag ≠ [] →
      (searchRun fetchO grade subject topic subtopic contentTypes extraDomains
        maxResults strictFlag).results =
        strictAttempt fetchO grade subject topic subtopic contentTypes extraDomains
          maxResults strictFlag ∧
      (searchRun fetchO grade subject topic subtopic contentTypes extraDomains
        maxResults strictFlag).queriesIssued =
        [(primaryQuery grade subject topic subtopic contentTypes extraDomains, maxResults)]) ∧
    (strictAttempt fetchO grade subject topic subtopic contentTypes extraDomains
        maxResults strictFlag = [] →
      (∀ raw, fetchO (fallbackQuery grade subject topic subtopic contentTypes)
          maxResults = Except.ok raw →
        (searchRun fetchO grade subject topic subtopic contentTypes extraDomains
          maxResults strictFlag).results =
          filter_results raw (resolve_domains grade subject extraDomains) strictFlag) ∧
      (∀ e, fetchO (fallbackQuery grade subject topic subtopic contentTypes)
          maxResults = Except.error e →
        (searchRun fetchO grade subject topic subtopic contentTypes extraDomains
          maxResults strictFlag).results = [])) := by
  by_cases hS : strictAttempt fetchO grade subject topic subtopic contentTypes
      extraDomains maxResults strictFlag = []
  · have hempty : (strictAttempt fetchO grade subject topic subtopic contentTypes
        extraDomains maxResults strictFlag).isEmpty = true := by
      rw [hS]
      rfl
    refine ⟨?_, ?_, fun hne => absurd hS hne, fun _ => ⟨?_, ?_⟩⟩
    · intro e _
      rw [searchRun_eq, if_pos hempty]
      cases hf : fetchO (fallbackQuery grade subject topic subtopic contentTypes)
          maxResults with
      | ok raw => rfl
      | error e2 => rfl
    · rw [searchRun_eq, if_pos hempty]
      cases hf : fetchO (fallbackQuery grade subject topic subtopic contentTypes)
          maxResults with
      | ok raw => simpa using hS
      | error e2 => simpa using hS
    · intro raw hf
      rw [searchRun_eq, if_pos hempty, hf]
    · intro e hf
      rw [searchRun_eq, if_pos hempty, hf]
  · have hempty : ¬ (strictAttempt fetchO grade subject topic subtopic contentTypes
        extraDomains maxResults strictFlag).isEmpty = true := by
      intro h
      exact hS (List.isEmpty_iff.mp h)
    refine ⟨?_, ?_, fun _ => ?_, fun h => absurd h hS⟩
    · intro e he
      exfalso
      apply hS
      rw [strictAttempt, he]
    · rw [searchRun_eq, if_neg hempty]
      simp [hS]
    · rw [searchRun_eq, if_neg hempty]
      exact ⟨rfl, rfl⟩

/-- C5 counterexample: with the non-positive `max_results = 0` and a failing
backend, `search` still issues both fetch calls (each carrying
`max_results = 0`) and returns the empty list — no `ConfigurationError` is
raised before the fetch, and indeed no such validation or exception type
exists in the pipeline. -/
theorem search_invalid_max_results_cex :
    (searchRun (fun _ _ => Except.error "search failed") 8 "Physics" "Gravity"
      none none [] 0 false).queriesIssued.length = 2 ∧
    (searchRun (fun _ _ => Except.error "search failed") 8 "Physics" "Gravity"
      none none [] 0 false).results = [] :=
  ⟨rfl, rfl⟩

/-- C5 amended: `search` validates nothing about the request: no
`ConfigurationError` exists in the pipeline, and whatever `max_results` is
(non-positive included) the strict fetch is always attempted first with the
caller's value passed through unchanged, so the first issued query is the
site-filtered one; every call then terminates with a (possibly empty)
result list — one or two fetches are made and all their failures are
swallowed (the model is a total function into `SearchRun`). -/
theorem search_no_request_validation
    (fetchO : String → Int → Except String (List RawHit))
    (grade : Int) (subject topic : String) (subtopic : Option String)
    (contentTypes : Option (List String)) (extraDomains : List String)
    (maxResults : Int) (strictFlag : Bool) :
    (searchRun fetchO grade subject topic subtopic contentTypes extraDomains
        maxResults strictFlag).queriesIssued.head? =
      some (primaryQuery grade subject topic subtopic contentTypes extraDomains,
        maxResults) ∧
    ((searchRun fetchO grade subject topic subtopic contentTypes extraDomains
        maxResults strictFlag).queriesIssued.length = 1 ∨
     (searchRun fetchO grade subject topic subtopic contentTypes extraDomains
        maxResults strictFlag).queriesIssued.length = 2) := by
  rw [searchRun_eq]
  by_cases hempty : (strictAttempt fetchO grade subject topic subtopic contentTypes
      extraDomains maxResults strictFlag).isEmpty = true
  · rw [if_pos hempty]
    cases hf : fetchO (fallbackQuery grade subject topic subtopic contentTypes)
        maxResults with
    | ok raw => exact ⟨rfl, Or.inr rfl⟩
    | error e => exact ⟨rfl, Or.inr rfl⟩
  · rw [if_neg hempty]
    exact ⟨rfl, Or.inl rfl⟩

end EduSearch
